import Mathlib

/-!
Shallow embedding of `scripts/geodata/address_formatting/formatter.py`
(class `AddressFormatter`) together with theorems checking the
natural-language specification against it.

Python strings are modelled as `String`/`List Char`; Python dicts of
components are modelled as association lists in insertion order; functions
that can raise are modelled with `Except`/`Option`.  The external
collaborators (the `pystache` template engine and the `re` regex module)
are passed in as an `Ext` record of opaque functions, exactly as the spec
treats them (given services with documented contracts).
-/

/-! ## Python string primitives -/

def toStr (l : List Char) : String := String.mk l

/-- The six characters Python's `str.strip()` removes. -/
def isPySpace (c : Char) : Bool :=
  c == ' ' || c == '\t' || c == '\n' || c == '\r' || c == '\x0b' || c == '\x0c'

def dropRightWhile (p : Char → Bool) (l : List Char) : List Char :=
  (l.reverse.dropWhile p).reverse

/-- Python `str.strip()`. -/
def pyStrip (l : List Char) : List Char :=
  dropRightWhile isPySpace (l.dropWhile isPySpace)

def consHead (c : Char) : List (List Char) → List (List Char)
  | [] => [[c]]
  | p :: ps => (c :: p) :: ps

/-- Fuel-indexed worker for `splitSeq` (structural recursion on the fuel
keeps the definition kernel-reducible). -/
def splitSeqF (p : Char) (ps : List Char) : Nat → List Char → List (List Char)
  | _, [] => [[]]
  | 0, _ :: _ => [[]]
  | fuel + 1, c :: cs =>
    if (p :: ps).isPrefixOf (c :: cs) then
      [] :: splitSeqF p ps fuel (cs.drop ps.length)
    else
      consHead c (splitSeqF p ps fuel cs)

/-- Python `str.split(sep)` for a non-empty separator `p :: ps`:
leftmost, non-overlapping matches. -/
def splitSeq (p : Char) (ps : List Char) (s : List Char) : List (List Char) :=
  splitSeqF p ps s.length s

/-- Python `sep.join(pieces)`. -/
def joinSeq (sep : List Char) : List (List Char) → List Char
  | [] => []
  | [x] => x
  | x :: y :: ys => x ++ sep ++ joinSeq sep (y :: ys)

def concatMap {α β : Type _} (f : α → List β) : List α → List β
  | [] => []
  | a :: t => f a ++ concatMap f t

/-- Python `pat in s` (substring containment). -/
def containsSub (pat : List Char) : List Char → Bool
  | [] => pat.isEmpty
  | c :: cs => (pat.isPrefixOf (c :: cs)) || containsSub pat cs

/-- Python `re.sub` restricted to a literal (metacharacter-free) pattern
`p :: ps`: replace each leftmost non-overlapping occurrence by `rep`. -/
def replaceAllF (p : Char) (ps rep : List Char) : Nat → List Char → List Char
  | _, [] => []
  | 0, _ :: _ => []
  | fuel + 1, c :: cs =>
    if (p :: ps).isPrefixOf (c :: cs) then
      rep ++ replaceAllF p ps rep fuel (cs.drop ps.length)
    else
      c :: replaceAllF p ps rep fuel cs

def replaceAll (p : Char) (ps rep : List Char) (s : List Char) : List Char :=
  replaceAllF p ps rep s.length s

/-- First-occurrence deduplication with a `seen` accumulator, mirroring the
`seen = set()` loop of `post_replacements`. -/
def dedupFirstAux (seen : List (List Char)) : List (List Char) → List (List Char)
  | [] => []
  | x :: xs => if x ∈ seen then dedupFirstAux seen xs else x :: dedupFirstAux (x :: seen) xs

def dedupFirst (l : List (List Char)) : List (List Char) := dedupFirstAux [] l

/-- Python `str.split()` with no argument: split on whitespace runs,
discarding empty pieces. -/
def pySplitWsF : Nat → List Char → List (List Char)
  | _, [] => []
  | 0, _ :: _ => []
  | fuel + 1, c :: cs =>
    if isPySpace c then pySplitWsF fuel cs
    else (c :: cs.takeWhile (fun x => !(isPySpace x))) ::
      pySplitWsF fuel (cs.dropWhile (fun x => !(isPySpace x)))

def pySplitWs (s : List Char) : List (List Char) := pySplitWsF s.length s

/-! ## Association-list model of Python dicts -/

def alookup {α : Type _} : List (String × α) → String → Option α
  | [], _ => none
  | (a, b) :: t, k => if a = k then some b else alookup t k

def containsKeyB {α : Type _} (l : List (String × α)) (k : String) : Bool :=
  l.any (fun kv => kv.1 == k)

def eraseKey {α : Type _} (l : List (String × α)) (k : String) : List (String × α) :=
  l.filter (fun kv => !(kv.1 == k))

abbrev Components := List (String × String)

/-! ## External collaborators (tokenizer modelled from the spec,
template engine and regex engine passed as parameters) -/

inductive TokType where
  | word
  | comma
  | hyphen
deriving DecidableEq

def isWordChar (c : Char) : Bool := !(isPySpace c) && !(c == ',') && !(c == '-')

/-- Modelled from the spec: the external tokenizer `tokenize_raw` of
`postal.text.tokenize` is not under `src/`.  Per the spec's tokenizer
interface it yields `(offset, length, category)` triples whose categories
distinguish comma, hyphen and word/other at minimum; whitespace separates
tokens and is not itself emitted (forced by the spec's own example
`", - Main St -, "` stripping to `"Main St"`). -/
def tokAuxF : Nat → List Char → Nat → List (Nat × Nat × TokType)
  | _, [], _ => []
  | 0, _ :: _, _ => []
  | fuel + 1, c :: cs, i =>
    if isPySpace c then tokAuxF fuel cs (i + 1)
    else if c == ',' then (i, 1, TokType.comma) :: tokAuxF fuel cs (i + 1)
    else if c == '-' then (i, 1, TokType.hyphen) :: tokAuxF fuel cs (i + 1)
    else
      (i, (cs.takeWhile isWordChar).length + 1, TokType.word) ::
        tokAuxF fuel (cs.dropWhile isWordChar) (i + (cs.takeWhile isWordChar).length + 1)

def tokAux (s : List Char) (i : Nat) : List (Nat × Nat × TokType) :=
  tokAuxF s.length s i

/-- Modelled from the spec: the external `tokenize` form producing
`(token_text, category)` pairs, derived from the offset form. -/
def tokenizePairs (s : List Char) : List (List Char × TokType) :=
  (tokAux s 0).map (fun t => ((s.drop t.1).take t.2.1, t.2.2))

/-- The external template and regex engines, specified only at their
interface boundary.  `renderPlain` is `pystache.render(text, **components)`,
`renderWith` is `pystache.render(template, first=helper, **components)`,
`reSub` is `re.sub(pattern, replacement, text)`. -/
structure ExtSvc where
  renderPlain : String → Components → String
  renderWith : (String → String) → String → Components → String
  reSub : String → String → String → String

inductive PyErr where
  | typeError
  | keyError
  | valueError
deriving DecidableEq

instance exceptDecEq {e a : Type _} [DecidableEq e] [DecidableEq a] :
    DecidableEq (Except e a) := fun x y =>
  match x, y with
  | Except.ok v, Except.ok w =>
    if h : v = w then isTrue (by rw [h]) else isFalse (fun hh => h (Except.ok.inj hh))
  | Except.error v, Except.error w =>
    if h : v = w then isTrue (by rw [h]) else isFalse (fun hh => h (Except.error.inj hh))
  | Except.ok _, Except.error _ => isFalse (fun hh => Except.noConfusion hh)
  | Except.error _, Except.ok _ => isFalse (fun hh => Except.noConfusion hh)

/-! ## AddressFormatter: configuration and alias table -/

structure TemplateRecord where
  address_template : String
  replace : List (String × String)
  postformat_replace : List (String × String)
deriving DecidableEq

/-- A loaded `worldwide.yaml` value: either a full per-country mapping or a
bare template string (`load_config` stores both shapes). -/
inductive TemplateValue where
  | str (s : String)
  | record (r : TemplateRecord)
deriving DecidableEq

abbrev Config := List (String × TemplateValue)

/-- The class-level `aliases` OrderedDict of `AddressFormatter`. -/
def aliasesList : List (String × String) :=
  [("name", "house"),
   ("addr:housename", "house"),
   ("addr:housenumber", "house_number"),
   ("addr:house_number", "house_number"),
   ("addr:street", "road"),
   ("addr:city", "city"),
   ("addr:locality", "city"),
   ("addr:municipality", "city"),
   ("addr:hamlet", "city"),
   ("addr:suburb", "suburb"),
   ("addr:neighbourhood", "suburb"),
   ("addr:neighborhood", "suburb"),
   ("addr:district", "suburb"),
   ("addr:state", "state"),
   ("addr:province", "state"),
   ("addr:region", "state"),
   ("addr:postal_code", "postcode"),
   ("addr:postcode", "postcode"),
   ("addr:country", "country"),
   ("street", "road"),
   ("street_name", "road"),
   ("residential", "road"),
   ("hamlet", "city"),
   ("neighborhood", "suburb"),
   ("neighbourhood", "suburb"),
   ("city_district", "suburb"),
   ("state_code", "state"),
   ("country_name", "country"),
   ("postal_code", "postcode"),
   ("post_code", "postcode")]

def aliasGet (k : String) : Option String := alookup aliasesList k

/-- One iteration of the `replace_aliases` loop for snapshot key `k`:
`new_key = self.aliases.get(k); if new_key and new_key not in components:
components[new_key] = components.pop(k)`. -/
def replaceAliasesStep (c : Components) (k : String) : Components :=
  match aliasGet k with
  | none => c
  | some nk =>
    if containsKeyB c nk then c
    else
      match alookup c k with
      | none => c
      | some v => eraseKey c k ++ [(nk, v)]

/-- `AddressFormatter.replace_aliases`: iterate over a snapshot of the keys,
mutating the mapping. -/
def replaceAliases (c : Components) : Components :=
  (c.map Prod.fst).foldl replaceAliasesStep c

def minimalComponentKeys : List (List String) :=
  [["road", "house_number"], ["road", "house"], ["road", "postcode"]]

/-- `AddressFormatter.minimal_components`. -/
def minimalComponents (c : Components) : Bool :=
  minimalComponentKeys.any (fun pair => pair.all (fun k => containsKeyB c k))

/-- `AddressFormatter.country_template`:
`self.config.get(c, self.config['default'])`.  Python evaluates the default
argument eagerly, so a missing `default` key raises `KeyError`. -/
def countryTemplate (cfg : Config) (c : String) : Except PyErr TemplateValue :=
  match alookup cfg "default" with
  | none => Except.error PyErr.keyError
  | some d => Except.ok ((alookup cfg c).getD d)

def pyUpper (s : String) : String := toStr (s.toList.map Char.toUpper)

/-! ## Template preprocessing -/

/-- The case-insensitive search for
`city|state|state_district|postcode|country` in a line
(`post_suburb_keys.search`). -/
def postSuburbMatch (line : List Char) : Bool :=
  let low := line.map Char.toLower
  containsSub "city".toList low || containsSub "state".toList low ||
  containsSub "state_district".toList low || containsSub "postcode".toList low ||
  containsSub "country".toList low

/-- The suburb-insertion condition of `add_suburb_tags` for one line:
`u'road' in line and not suburb_included and not post_suburb`
(all three tests are textual, not placeholder-structural). -/
def suburbCond (template line : List Char) : Bool :=
  containsSub "road".toList line && !(containsSub "suburb".toList template) &&
  !(postSuburbMatch line)

def rstripNl (l : List Char) : List Char :=
  (l.reverse.dropWhile (fun c => c == '\n')).reverse

/-- `AddressFormatter.add_suburb_tags`. -/
def addSuburbTags (template : String) : String :=
  let tl := template.toList
  toStr (joinSeq ['\n']
    (concatMap
      (fun line =>
        rstripNl line :: (if suburbCond tl line then ["{{{suburb}}}".toList] else []))
      (splitSeq '\n' [] tl)))

/-- `AddressFormatter.tag_template_separators`: the three `re.sub` rewrites
(placeholder-comma, placeholder-hyphen, and literal space-hyphen-space),
applied in that order, each inserting a `SEP`-tagged separator marker. -/
def tagTemplateSeparators (t : String) : String :=
  toStr (replaceAll ' ' "- ".toList " -/SEP ".toList
    (replaceAll '}' ['-'] "\x7d\x7d -/SEP ".toList
      (replaceAll '}' [','] "\x7d\x7d ,/SEP ".toList t.toList)))

/-! ## strip_component -/

/-- The first loop of untagged `strip_component`: `start = token_start;
break on the first non-comma/hyphen token, else start = start + length`. -/
def findStart : List (Nat × Nat × TokType) → Nat
  | [] => 0
  | (ts, tl, tt) :: rest =>
    if tt == TokType.comma || tt == TokType.hyphen then
      (if rest.isEmpty then ts + tl else findStart rest)
    else ts

/-- The second loop of untagged `strip_component`, over the reversed token
list: `end = token_start + token_length; break on the first
non-comma/hyphen token, else end = token_start`. -/
def findEndRev : List (Nat × Nat × TokType) → Nat
  | [] => 0
  | (ts, tl, tt) :: rest =>
    if tt == TokType.comma || tt == TokType.hyphen then
      (if rest.isEmpty then ts else findEndRev rest)
    else ts + tl

/-- `AddressFormatter.strip_component` with `tagged=False`.  Faithfully,
the offsets come from tokenizing `value.strip()` but the final slice is
taken from the unstripped `value`. -/
def stripComponentUntagged (value : String) : String :=
  let l := value.toList
  let tokens := tokAux (pyStrip l) 0
  toStr ((l.drop (findStart tokens)).take (findEndRev tokens.reverse - findStart tokens))

/-- Python `t.rsplit('/', 1)` when `'/'` occurs in `t` (`none` models the
`ValueError` of unpacking a 1-element result). -/
def rsplitSlash (t : List Char) : Option (List Char × List Char) :=
  match t.reverse.dropWhile (fun c => !(c == '/')) with
  | [] => none
  | _ :: br => some (br.reverse, (t.reverse.takeWhile (fun c => !(c == '/'))).reverse)

def tagLabel (t : List Char) : List Char :=
  match rsplitSlash t with
  | none => []
  | some p => p.2

/-- The first loop of tagged `strip_component` starting at index `i`. -/
def tagScan : List (List Char) → Nat → Option Nat
  | [], i => some i
  | t :: rest, i =>
    match rsplitSlash t with
    | none => none
    | some p => if p.2 = "SEP".toList then tagScan rest (i + 1) else some i

/-- The second loop of tagged `strip_component`, over the reversed token
list, with `n` the total number of tokens and `j` the reversed index. -/
def tagScanEnd (n : Nat) : List (List Char) → Nat → Option Nat
  | [], j => some (n - j)
  | t :: rest, j =>
    match rsplitSlash t with
    | none => none
    | some p => if p.2 = "SEP".toList then tagScanEnd n rest (j + 1) else some (n - j)

/-- `AddressFormatter.strip_component` with `tagged=True`; `none` models the
`ValueError` raised by `t.rsplit('/', 1)` unpacking on a slash-free token. -/
def stripComponentTagged (value : String) : Option String :=
  let toks := pySplitWs value.toList
  match tagScan toks 0, tagScanEnd toks.length toks.reverse 0 with
  | some s, some e => some (toStr (joinSeq [' '] ((toks.drop s).take (e - s))))
  | _, _ => none

/-- The specification's description of tagged stripping, written from the
spec's words for comparison with `stripComponentTagged`: empty result when
every whitespace token carries the separator label, otherwise the
space-joined subsequence of tagged tokens between the first and last
non-separator tokens. -/
def stripTaggedSpec (value : String) : String :=
  let toks := pySplitWs value.toList
  if toks.all (fun t => tagLabel t == "SEP".toList) then ""
  else
    let s := toks.findIdx (fun t => !(tagLabel t == "SEP".toList))
    let e := toks.length - toks.reverse.findIdx (fun t => !(tagLabel t == "SEP".toList))
    toStr (joinSeq [' '] ((toks.drop s).take (e - s)))

/-! ## Rendering and post-processing -/

/-- The deduplication part of `post_replacements` (split on the `' | '`
splitter, strip each piece, keep first occurrences, rejoin). -/
def dedupStep (s : String) : String :=
  toStr (joinSeq [' ', '|', ' '] (dedupFirst ((splitSeq ' ' ['|', ' '] s.toList).map pyStrip)))

/-- `AddressFormatter.post_replacements`: deduplication, then the
`postformat_replace` regex rules in order. -/
def postReplacements (ext : ExtSvc) (r : TemplateRecord) (text : String) : String :=
  r.postformat_replace.foldl (fun acc pr => ext.reSub pr.1 pr.2 acc) (dedupStep text)

/-- `AddressFormatter.apply_replacements` (no-op when the `replace` rule
list is absent/empty, otherwise every rule applied in order to every
component value). -/
def applyReplacements (ext : ExtSvc) (r : TemplateRecord) (c : Components) : Components :=
  match r.replace with
  | [] => c
  | _ :: _ =>
    c.map (fun kv => (kv.1, r.replace.foldl (fun acc pr => ext.reSub pr.1 pr.2 acc) kv.2))

/-- The `render_first` helper passed to the template engine: render the raw
text, split on `'||'`, strip each piece, return the first non-blank. -/
def renderFirst (ext : ExtSvc) (c : Components) (text : String) : String :=
  match ((splitSeq '|' ['|'] (ext.renderPlain text c).toList).map pyStrip).filter
      (fun p => !(p.isEmpty)) with
  | [] => ""
  | p :: _ => toStr p

/-- Python `re.split` on `'[\r\n]+[\s\r\n]*'`: a match is a whitespace run
beginning with a carriage return or newline. -/
def wsSplitF : Nat → List Char → List (List Char)
  | _, [] => [[]]
  | 0, _ :: _ => [[]]
  | fuel + 1, c :: cs =>
    if c == '\r' || c == '\n' then [] :: wsSplitF fuel (cs.dropWhile isPySpace)
    else consHead c (wsSplitF fuel cs)

def wsSplit (s : List Char) : List (List Char) := wsSplitF s.length s

/-- The component tagging of `format_address`:
`' '.join('{}/{}'.format(t.replace(' ', ''), k.replace(' ', '_')) for t, c
in tokenize(v))` for each component. -/
def tagComponentsFn (c : Components) : Components :=
  c.map (fun kv =>
    (kv.1, toStr (joinSeq [' '] ((tokenizePairs kv.2.toList).map (fun t =>
      t.1.filter (fun ch => !(ch == ' ')) ++
        '/' :: (kv.1.toList.map (fun ch => if ch == ' ' then '_' else ch)))))))

/-- `AddressFormatter.render_template`. -/
def renderTemplate (ext : ExtSvc) (tmpl : String) (c : Components) (tagged : Bool) :
    Except PyErr String :=
  let output := toStr (pyStrip (ext.renderWith (renderFirst ext c) tmpl c).toList)
  let values := (wsSplit output.toList).map toStr
  let splitter := if tagged then " |/FSEP " else " | "
  if tagged then
    match values.mapM stripComponentTagged with
    | none => Except.error PyErr.valueError
    | some stripped =>
      Except.ok (String.intercalate splitter
        (stripped.filter (fun v => !((pyStrip v.toList).isEmpty))))
  else
    Except.ok (String.intercalate splitter
      ((values.map stripComponentUntagged).filter (fun v => !((pyStrip v.toList).isEmpty))))

/-- `AddressFormatter.format_address`.  The second component of the result
is the caller's mapping after the call (it is mutated in place by
`replace_aliases` and `apply_replacements`; the tagging comprehension only
rebinds the local name). -/
def formatAddress (ext : ExtSvc) (cfg : Config) (country : String) (comps : Components)
    (minimalOnly tagComponents replaceAliasesFlag : Bool) :
    Except PyErr (Option String) × Components :=
  match alookup cfg (pyUpper country) with
  | none => (Except.ok none, comps)
  | some (TemplateValue.str s) =>
    if s = "" then (Except.ok none, comps)
    else (Except.error PyErr.typeError, comps)
  | some (TemplateValue.record r) =>
    let comps1 := if replaceAliasesFlag then replaceAliases comps else comps
    if minimalOnly && !(minimalComponents comps1) then (Except.ok none, comps1)
    else
      let comps2 := applyReplacements ext r comps1
      let templateText :=
        if tagComponents then tagTemplateSeparators r.address_template
        else r.address_template
      let compsR := if tagComponents then tagComponentsFn comps2 else comps2
      match renderTemplate ext templateText compsR tagComponents with
      | Except.error e => (Except.error e, comps2)
      | Except.ok text => (Except.ok (some (postReplacements ext r text)), comps2)

def isRecordB : TemplateValue → Bool
  | TemplateValue.record _ => true
  | TemplateValue.str _ => false

/-! ## Concrete fixtures used by witnesses and counterexamples -/

def ext0 : ExtSvc :=
  { renderPlain := fun _ _ => "",
    renderWith := fun _ _ _ => "",
    reSub := fun _ _ t => t }

def rec0 : TemplateRecord :=
  { address_template := "{{road}} {{postcode}}", replace := [], postformat_replace := [] }

def cfgRec : Config := [("XX", TemplateValue.record rec0)]

def cfgC1 : Config := [("ES", TemplateValue.record rec0), ("default", TemplateValue.record rec0)]

def cfgStr : Config := [("XX", TemplateValue.str "{{road}}")]

/-! ## Theorems.  First, equations and facts about the split/join helpers. -/

theorem splitSeqF_fuel (p : Char) (ps : List Char) :
    ∀ f1 f2 (s : List Char), s.length ≤ f1 → s.length ≤ f2 →
      splitSeqF p ps f1 s = splitSeqF p ps f2 s := by
  intro f1
  induction f1 with
  | zero =>
    intro f2 s h1 _
    have hs : s = [] := List.eq_nil_of_length_eq_zero (Nat.le_zero.mp h1)
    subst hs
    cases f2 <;> simp [splitSeqF]
  | succ f ih =>
    intro f2 s h1 h2
    cases s with
    | nil => cases f2 <;> simp [splitSeqF]
    | cons c cs =>
      cases f2 with
      | zero => simp at h2
      | succ g =>
        have hcs : cs.length ≤ f := by simp at h1; omega
        have hcs2 : cs.length ≤ g := by simp at h2; omega
        by_cases hp : (p :: ps).isPrefixOf (c :: cs) = true
        · simp only [splitSeqF, hp, if_true]
          have hd : (cs.drop ps.length).length ≤ f := by
            rw [List.length_drop]; omega
          have hd2 : (cs.drop ps.length).length ≤ g := by
            rw [List.length_drop]; omega
          rw [ih _ _ hd hd2]
        · simp only [splitSeqF, hp, Bool.false_eq_true, if_false]
          rw [ih _ _ hcs hcs2]

theorem splitSeq_nil (p : Char) (ps : List Char) : splitSeq p ps [] = [[]] := rfl

theorem splitSeq_cons (p : Char) (ps : List Char) (c : Char) (cs : List Char) :
    splitSeq p ps (c :: cs) =
      if (p :: ps).isPrefixOf (c :: cs) then
        [] :: splitSeq p ps (cs.drop ps.length)
      else
        consHead c (splitSeq p ps cs) := by
  show splitSeqF p ps (cs.length + 1) (c :: cs) = _
  simp only [splitSeqF]
  by_cases hp : (p :: ps).isPrefixOf (c :: cs) = true
  · simp only [hp, if_true]
    have hd : (cs.drop ps.length).length ≤ cs.length := by
      rw [List.length_drop]; exact Nat.sub_le _ _
    rw [splitSeqF_fuel p ps cs.length (cs.drop ps.length).length _ hd (le_refl _)]
    rfl
  · simp only [hp, Bool.false_eq_true, if_false]
    rfl

theorem splitSeq_ne_nil (p : Char) (ps : List Char) (s : List Char) :
    splitSeq p ps s ≠ [] := by
  cases s with
  | nil => simp [splitSeq_nil]
  | cons c cs =>
    rw [splitSeq_cons]
    split
    · simp
    · cases splitSeq p ps cs <;> simp [consHead]

theorem splitSeq_single_append (c : Char) (U r : List Char) (h : c ∉ U) :
    splitSeq c [] (U ++ c :: r) = U :: splitSeq c [] r := by
  induction U with
  | nil =>
    rw [List.nil_append, splitSeq_cons]
    simp [List.isPrefixOf]
  | cons a U' ih =>
    have hac : (c == a) = false :=
      beq_eq_false_iff_ne.mpr (fun hh => h (hh ▸ List.mem_cons_self a U'))
    have hU' : c ∉ U' := fun hm => h (List.mem_cons_of_mem a hm)
    rw [List.cons_append, splitSeq_cons]
    have hpre : ([c].isPrefixOf (a :: (U' ++ c :: r))) = false := by
      simp [List.isPrefixOf, hac]
    simp only [hpre, Bool.false_eq_true, if_false, ih hU']
    rfl

theorem splitSeq_single_nosep (c : Char) (U : List Char) (h : c ∉ U) :
    splitSeq c [] U = [U] := by
  induction U with
  | nil => exact splitSeq_nil c []
  | cons a U' ih =>
    have hac : (c == a) = false :=
      beq_eq_false_iff_ne.mpr (fun hh => h (hh ▸ List.mem_cons_self a U'))
    have hU' : c ∉ U' := fun hm => h (List.mem_cons_of_mem a hm)
    rw [splitSeq_cons]
    have hpre : ([c].isPrefixOf (a :: U')) = false := by
      simp [List.isPrefixOf, hac]
    simp only [hpre, Bool.false_eq_true, if_false, ih hU']
    rfl

theorem splitSeq_single_pieces (c : Char) :
    ∀ n (s : List Char), s.length ≤ n → ∀ q ∈ splitSeq c [] s, c ∉ q := by
  intro n
  induction n with
  | zero =>
    intro s hs q hq
    have h0 : s = [] := List.eq_nil_of_length_eq_zero (Nat.le_zero.mp hs)
    subst h0
    simp [splitSeq_nil] at hq
    subst hq
    simp
  | succ n ih =>
    intro s hs q hq
    cases s with
    | nil =>
      simp [splitSeq_nil] at hq
      subst hq
      simp
    | cons a cs =>
      have hcs : cs.length ≤ n := by simp at hs; omega
      rw [splitSeq_cons] at hq
      by_cases hp : ([c]).isPrefixOf (a :: cs) = true
      · simp only [hp, if_true, List.length_nil, List.drop_zero] at hq
        rcases List.mem_cons.mp hq with rfl | hq'
        · simp
        · exact ih cs hcs q hq'
      · simp only [hp, Bool.false_eq_true, if_false] at hq
        have hca : c ≠ a := by
          intro hh
          apply hp
          simp [List.isPrefixOf, hh]
        cases hsp : splitSeq c [] cs with
        | nil => exact absurd hsp (splitSeq_ne_nil c [] cs)
        | cons q0 qs =>
          rw [hsp] at hq
          simp only [consHead] at hq
          rcases List.mem_cons.mp hq with rfl | hq'
          · intro hmem
            rcases List.mem_cons.mp hmem with rfl | hmem'
            · exact hca rfl
            · exact ih cs hcs q0 (hsp ▸ List.mem_cons_self q0 qs) hmem'
          · exact ih cs hcs q (hsp ▸ List.mem_cons_of_mem q0 hq')

theorem splitSeq_pipe_append (U r : List Char) (h : '|' ∉ U) :
    splitSeq ' ' ['|', ' '] (U ++ ' ' :: '|' :: ' ' :: r) =
      U :: splitSeq ' ' ['|', ' '] r := by
  induction U with
  | nil =>
    rw [List.nil_append, splitSeq_cons]
    simp [List.isPrefixOf]
  | cons a U' ih =>
    have hU' : '|' ∉ U' := fun hm => h (List.mem_cons_of_mem a hm)
    rw [List.cons_append, splitSeq_cons]
    have hpre : (([' ', '|', ' ']).isPrefixOf (a :: (U' ++ ' ' :: '|' :: ' ' :: r))) = false := by
      cases U' with
      | nil => simp [List.isPrefixOf]
      | cons b bs =>
        have hb : ('|' == b) = false :=
          beq_eq_false_iff_ne.mpr
            (fun hh => h (by rw [hh]; exact List.mem_cons_of_mem a (List.mem_cons_self b bs)))
        simp [List.isPrefixOf, hb]
    simp only [hpre, Bool.false_eq_true, if_false, ih hU']
    rfl

theorem splitSeq_pipe_nosep (U : List Char) (h : '|' ∉ U) :
    splitSeq ' ' ['|', ' '] U = [U] := by
  induction U with
  | nil => exact splitSeq_nil ' ' ['|', ' ']
  | cons a U' ih =>
    have hU' : '|' ∉ U' := fun hm => h (List.mem_cons_of_mem a hm)
    rw [splitSeq_cons]
    have hpre : (([' ', '|', ' ']).isPrefixOf (a :: U')) = false := by
      cases U' with
      | nil => simp [List.isPrefixOf]
      | cons b bs =>
        have hb : ('|' == b) = false :=
          beq_eq_false_iff_ne.mpr
            (fun hh => h (by rw [hh]; exact List.mem_cons_of_mem a (List.mem_cons_self b bs)))
        simp [List.isPrefixOf, hb]
    simp only [hpre, Bool.false_eq_true, if_false, ih hU']
    rfl

theorem splitSeq_join_pipe (D : List (List Char)) (hne : D ≠ [])
    (h : ∀ d ∈ D, '|' ∉ d) :
    splitSeq ' ' ['|', ' '] (joinSeq [' ', '|', ' '] D) = D := by
  induction D with
  | nil => exact absurd rfl hne
  | cons d D' ih =>
    cases D' with
    | nil =>
      show splitSeq ' ' ['|', ' '] d = [d]
      exact splitSeq_pipe_nosep d (h d (List.mem_cons_self d []))
    | cons e D'' =>
      have hd : '|' ∉ d := h d (List.mem_cons_self d (e :: D''))
      have hrest : ∀ x ∈ e :: D'', '|' ∉ x := fun x hx => h x (List.mem_cons_of_mem d hx)
      have hj : joinSeq [' ', '|', ' '] (d :: e :: D'') =
          d ++ ' ' :: '|' :: ' ' :: joinSeq [' ', '|', ' '] (e :: D'') := by
        show d ++ [' ', '|', ' '] ++ _ = _
        simp
      rw [hj, splitSeq_pipe_append _ _ hd, ih (by simp) hrest]

theorem splitSeq_join_single (c : Char) (D : List (List Char)) (hne : D ≠ [])
    (h : ∀ d ∈ D, c ∉ d) :
    splitSeq c [] (joinSeq [c] D) = D := by
  induction D with
  | nil => exact absurd rfl hne
  | cons d D' ih =>
    cases D' with
    | nil =>
      show splitSeq c [] d = [d]
      exact splitSeq_single_nosep c d (h d (List.mem_cons_self d []))
    | cons e D'' =>
      have hd : c ∉ d := h d (List.mem_cons_self d (e :: D''))
      have hrest : ∀ x ∈ e :: D'', c ∉ x := fun x hx => h x (List.mem_cons_of_mem d hx)
      have hj : joinSeq [c] (d :: e :: D'') =
          d ++ c :: joinSeq [c] (e :: D'') := by
        show d ++ [c] ++ _ = _
        simp
      rw [hj, splitSeq_single_append c _ _ hd, ih (by simp) hrest]

theorem mem_pyStrip {x : Char} {l : List Char} (h : x ∈ pyStrip l) : x ∈ l := by
  unfold pyStrip dropRightWhile at h
  rw [List.mem_reverse] at h
  have h1 := (List.dropWhile_sublist (l := (List.dropWhile isPySpace l).reverse) isPySpace).subset h
  rw [List.mem_reverse] at h1
  exact (List.dropWhile_sublist (l := l) isPySpace).subset h1

theorem dropWhile_cons_self {p : Char → Bool} {a : Char} {l : List Char}
    (h : List.dropWhile p (a :: l) = a :: l) : p a = false := by
  by_contra hp
  have hpa : p a = true := by
    cases hpa : p a
    · exact absurd hpa hp
    · rfl
  rw [List.dropWhile_cons_of_pos hpa] at h
  have := (List.dropWhile_sublist (l := l) p).length_le
  rw [h] at this
  simp at this

theorem dropWhile_self (p : Char → Bool) (l : List Char) :
    List.dropWhile p (List.dropWhile p l) = List.dropWhile p l := by
  cases h : List.dropWhile p l with
  | nil => simp
  | cons a t =>
    have hw : List.dropWhile p l ≠ [] := by simp [h]
    have hhead := List.head_dropWhile_not p l hw
    have ha : p a = false := by
      have : (List.dropWhile p l).head hw = a := by simp [h]
      rw [this] at hhead
      exact hhead
    rw [List.dropWhile_cons_of_neg (by simp [ha])]

theorem dropRightWhile_self (p : Char → Bool) (l : List Char) :
    dropRightWhile p (dropRightWhile p l) = dropRightWhile p l := by
  unfold dropRightWhile
  rw [List.reverse_reverse, dropWhile_self]

theorem dropRightWhile_prefix (p : Char → Bool) (l : List Char) :
    dropRightWhile p l <+: l := by
  unfold dropRightWhile
  have hs : List.dropWhile p l.reverse <:+ l.reverse := List.dropWhile_suffix p
  have := List.reverse_prefix.mpr hs
  rwa [List.reverse_reverse] at this

theorem dropWhile_dropRightWhile {p : Char → Bool} {x : List Char}
    (hx : List.dropWhile p x = x) :
    List.dropWhile p (dropRightWhile p x) = dropRightWhile p x := by
  cases hy : dropRightWhile p x with
  | nil => simp
  | cons a t =>
    have hpre : dropRightWhile p x <+: x := dropRightWhile_prefix p x
    rw [hy] at hpre
    obtain ⟨w, hw⟩ := hpre
    have hax : x = a :: (t ++ w) := by rw [← hw]; simp
    have hpa : p a = false := dropWhile_cons_self (l := t ++ w) (by rw [← hax, hx, hax])
    rw [List.dropWhile_cons_of_neg (by simp [hpa])]

theorem pyStrip_idem (l : List Char) : pyStrip (pyStrip l) = pyStrip l := by
  show pyStrip (dropRightWhile isPySpace (l.dropWhile isPySpace)) = _
  unfold pyStrip
  rw [dropWhile_dropRightWhile (dropWhile_self isPySpace l), dropRightWhile_self]

theorem dedupFirstAux_subset :
    ∀ (l : List (List Char)) (seen : List (List Char)) (x : List Char),
      x ∈ dedupFirstAux seen l → x ∈ l := by
  intro l
  induction l with
  | nil => intro seen x hx; simp [dedupFirstAux] at hx
  | cons a t ih =>
    intro seen x hx
    by_cases ha : a ∈ seen
    · simp only [dedupFirstAux, if_pos ha] at hx
      exact List.mem_cons_of_mem a (ih seen x hx)
    · simp only [dedupFirstAux, if_neg ha] at hx
      rcases List.mem_cons.mp hx with rfl | hx'
      · exact List.mem_cons_self x t
      · exact List.mem_cons_of_mem a (ih (a :: seen) x hx')

theorem dedupFirstAux_nodup :
    ∀ (l : List (List Char)) (seen : List (List Char)),
      (dedupFirstAux seen l).Nodup ∧ ∀ x ∈ dedupFirstAux seen l, x ∉ seen := by
  intro l
  induction l with
  | nil => intro seen; simp [dedupFirstAux]
  | cons a t ih =>
    intro seen
    by_cases ha : a ∈ seen
    · simp only [dedupFirstAux, if_pos ha]
      exact ih seen
    · simp only [dedupFirstAux, if_neg ha]
      obtain ⟨hnd, hout⟩ := ih (a :: seen)
      refine ⟨List.nodup_cons.mpr ⟨?_, hnd⟩, ?_⟩
      · intro hmem
        exact hout a hmem (List.mem_cons_self a seen)
      · intro x hx
        rcases List.mem_cons.mp hx with rfl | hx'
        · exact ha
        · exact fun hs => hout x hx' (List.mem_cons_of_mem a hs)

theorem dedupFirstAux_of_nodup :
    ∀ (l : List (List Char)) (seen : List (List Char)),
      l.Nodup → (∀ x ∈ l, x ∉ seen) → dedupFirstAux seen l = l := by
  intro l
  induction l with
  | nil => intro seen _ _; rfl
  | cons a t ih =>
    intro seen hnd hout
    have ha : a ∉ seen := hout a (List.mem_cons_self a t)
    simp only [dedupFirstAux, if_neg ha]
    congr 1
    apply ih (a :: seen) (List.nodup_cons.mp hnd).2
    intro x hx hmem
    rcases List.mem_cons.mp hmem with rfl | hmem'
    · exact (List.nodup_cons.mp hnd).1 hx
    · exact hout x (List.mem_cons_of_mem a hx) hmem'

theorem dedupFirst_subset {x : List Char} {l : List (List Char)}
    (h : x ∈ dedupFirst l) : x ∈ l := dedupFirstAux_subset l [] x h

theorem dedupFirst_nodup (l : List (List Char)) : (dedupFirst l).Nodup :=
  (dedupFirstAux_nodup l []).1

theorem dedupFirst_of_nodup {l : List (List Char)} (h : l.Nodup) : dedupFirst l = l :=
  dedupFirstAux_of_nodup l [] h (by simp)

theorem dedupFirst_ne_nil {l : List (List Char)} (h : l ≠ []) : dedupFirst l ≠ [] := by
  cases l with
  | nil => exact absurd rfl h
  | cons a t => simp [dedupFirst, dedupFirstAux]

theorem map_self_of {α : Type _} (f : α → α) (l : List α) (h : ∀ x ∈ l, f x = x) :
    l.map f = l := by
  induction l with
  | nil => rfl
  | cons a t ih =>
    simp only [List.map_cons, h a (List.mem_cons_self a t)]
    rw [ih (fun x hx => h x (List.mem_cons_of_mem a hx))]

theorem toStr_toList (l : List Char) : (toStr l).toList = l := rfl

theorem concatMap_congr {α β : Type _} {f g : α → List β} (l : List α)
    (h : ∀ x ∈ l, f x = g x) : concatMap f l = concatMap g l := by
  induction l with
  | nil => rfl
  | cons a t ih =>
    simp only [concatMap, h a (List.mem_cons_self a t)]
    rw [ih (fun x hx => h x (List.mem_cons_of_mem a hx))]

theorem concatMap_mem {α β : Type _} {f : α → List β} {l : List α} {x : β}
    (h : x ∈ concatMap f l) : ∃ a ∈ l, x ∈ f a := by
  induction l with
  | nil => simp [concatMap] at h
  | cons a t ih =>
    simp only [concatMap] at h
    rcases List.mem_append.mp h with h1 | h2
    · exact ⟨a, List.mem_cons_self a t, h1⟩
    · obtain ⟨b, hb, hx⟩ := ih h2
      exact ⟨b, List.mem_cons_of_mem a hb, hx⟩

theorem dropWhile_eq_self_of {p : Char → Bool} {l : List Char}
    (h : ∀ x ∈ l, p x = false) : List.dropWhile p l = l := by
  cases l with
  | nil => rfl
  | cons a t =>
    exact List.dropWhile_cons_of_neg (by simp [h a (List.mem_cons_self a t)])

theorem rstripNl_id {l : List Char} (h : '\n' ∉ l) : rstripNl l = l := by
  unfold rstripNl
  rw [dropWhile_eq_self_of, List.reverse_reverse]
  intro x hx
  rw [List.mem_reverse] at hx
  exact beq_eq_false_iff_ne.mpr (fun hh => h (hh ▸ hx))

/-- Claim C8 (amended): the split / strip / first-occurrence-deduplicate /
rejoin step of `post_replacements` is idempotent on every string whose
`' | '`-split segments are free of the pipe character (full idempotence
fails, see the counterexample). -/
theorem dedupStep_idem (s : String)
    (h : ∀ q ∈ splitSeq ' ' ['|', ' '] s.toList, '|' ∉ q) :
    dedupStep (dedupStep s) = dedupStep s := by
  have hDn : ∀ d ∈ dedupFirst ((splitSeq ' ' ['|', ' '] s.toList).map pyStrip), '|' ∉ d := by
    intro d hd
    obtain ⟨p, hp, hpd⟩ := List.mem_map.mp (dedupFirst_subset hd)
    intro hx
    exact h p hp (mem_pyStrip (hpd ▸ hx))
  have hDs : ∀ d ∈ dedupFirst ((splitSeq ' ' ['|', ' '] s.toList).map pyStrip),
      pyStrip d = d := by
    intro d hd
    obtain ⟨p, _, hpd⟩ := List.mem_map.mp (dedupFirst_subset hd)
    rw [← hpd, pyStrip_idem]
  have hne : dedupFirst ((splitSeq ' ' ['|', ' '] s.toList).map pyStrip) ≠ [] := by
    apply dedupFirst_ne_nil
    intro h0
    exact splitSeq_ne_nil ' ' ['|', ' '] s.toList (List.map_eq_nil_iff.mp h0)
  show dedupStep (toStr (joinSeq [' ', '|', ' '] _)) = _
  unfold dedupStep
  rw [toStr_toList, splitSeq_join_pipe _ hne hDn, map_self_of _ _ hDs,
    dedupFirst_of_nodup (dedupFirst_nodup _)]

/-- Claim C8 witness: the amended idempotence at the concrete input
`"b | a | b"`. -/
theorem dedupStep_idem_witness :
    (∀ q ∈ splitSeq ' ' ['|', ' '] "b | a | b".toList, '|' ∉ q) ∧
      dedupStep (dedupStep "b | a | b") = dedupStep "b | a | b" :=
  ⟨by decide, dedupStep_idem "b | a | b" (by decide)⟩

/-- Claim C8 counterexample: the deduplication step is not idempotent as
claimed for every string; on `"a  |\t | b"` (one segment ends in a pipe)
a second application changes the string again. -/
theorem dedupStep_not_idem :
    dedupStep (dedupStep "a  |\t | b") ≠ dedupStep "a  |\t | b" := by decide

/-- Claim C7 (amended): `add_suburb_tags` inserts a `{{{suburb}}}` line
directly after every line that textually contains the substring `road`,
provided the whole template does not textually contain `suburb` and the
line does not match the case-insensitive
`city|state|state_district|postcode|country` search; all other lines pass
through with nothing inserted.  (The three tests are substring tests, not
placeholder-structural ones, which is what the counterexample forces.) -/
theorem addSuburbTags_lines (t : String) :
    splitSeq '\n' [] (addSuburbTags t).toList =
      concatMap
        (fun line => line :: (if suburbCond t.toList line then ["{{{suburb}}}".toList] else []))
        (splitSeq '\n' [] t.toList) := by
  have hpieces : ∀ q ∈ splitSeq '\n' [] t.toList, '\n' ∉ q :=
    splitSeq_single_pieces '\n' t.toList.length t.toList (le_refl _)
  have hcongr :
      concatMap
        (fun line => rstripNl line :: (if suburbCond t.toList line then ["{{{suburb}}}".toList] else []))
        (splitSeq '\n' [] t.toList) =
      concatMap
        (fun line => line :: (if suburbCond t.toList line then ["{{{suburb}}}".toList] else []))
        (splitSeq '\n' [] t.toList) := by
    apply concatMap_congr
    intro x hx
    rw [rstripNl_id (hpieces x hx)]
  show splitSeq '\n' [] (toStr _).toList = _
  rw [toStr_toList, hcongr]
  apply splitSeq_join_single
  · cases hsp : splitSeq '\n' [] t.toList with
    | nil => exact absurd hsp (splitSeq_ne_nil '\n' [] t.toList)
    | cons q qs => simp [concatMap]
  · intro d hd
    obtain ⟨a, ha, hda⟩ := concatMap_mem hd
    rcases List.mem_cons.mp hda with rfl | hd'
    · exact hpieces d ha
    · by_cases hc : suburbCond t.toList a = true
      · rw [if_pos hc] at hd'
        have : d = "{{{suburb}}}".toList := List.mem_singleton.mp hd'
        subst this
        decide
      · rw [if_neg hc] at hd'
        simp at hd'

/-- Claim C7 counterexample: the line `Broadway` contains no road
placeholder, yet `add_suburb_tags` (which tests the substring `road`, not
the placeholder) inserts a suburb line after it instead of passing it
through unchanged. -/
theorem addSuburbTags_broadway :
    addSuburbTags "Broadway" ≠ "Broadway" ∧
      addSuburbTags "Broadway" = "Broadway\n{{{suburb}}}" := by decide

/-- Claim C1 (amended): for a country code whose upper-cased form is absent
from the loaded rule table, `format_address` returns the no-result sentinel
without touching the components; the fallback to the `default` record
exists only in the `country_template` helper, which `format_address` does
not call. -/
theorem formatAddress_unknown_country (ext : ExtSvc) (cfg : Config) (country : String)
    (comps : Components) (m tg a : Bool)
    (h : alookup cfg (pyUpper country) = none) :
    formatAddress ext cfg country comps m tg a = (Except.ok none, comps) ∧
      (∀ d, alookup cfg "default" = some d →
        countryTemplate cfg (pyUpper country) = Except.ok d) := by
  constructor
  · unfold formatAddress
    rw [h]
  · intro d hd
    unfold countryTemplate
    rw [hd, h]
    rfl

/-- Claim C1 witness: a config with a `default` record and no `XX` entry;
`format_address` on `"xx"` yields no-result even though `country_template`
would fall back. -/
theorem formatAddress_unknown_country_witness :
    formatAddress ext0 cfgC1 "xx" [("road", "A")] true true true =
        (Except.ok none, [("road", "A")]) ∧
      countryTemplate cfgC1 (pyUpper "xx") = Except.ok (TemplateValue.record rec0) :=
  ⟨(formatAddress_unknown_country ext0 cfgC1 "xx" [("road", "A")] true true true
      (by decide)).1,
   (formatAddress_unknown_country ext0 cfgC1 "xx" [("road", "A")] true true true
      (by decide)).2 (TemplateValue.record rec0) (by decide)⟩

/-- Claim C1 counterexample: with `default` present, `"XX"` absent, and the
minimal-components gate satisfiable, `format_address` still returns the
no-result sentinel instead of formatting with the `default` record. -/
theorem formatAddress_no_default_fallback :
    alookup cfgC1 "default" = some (TemplateValue.record rec0) ∧
      alookup cfgC1 (pyUpper "xx") = none ∧
      (formatAddress ext0 cfgC1 "xx" [("road", "A"), ("house_number", "2")]
          true true true).1 = Except.ok none := by decide

/-- Claim C2: a country whose loaded entry is a bare non-empty template
string makes `format_address` raise `TypeError` at
`template['address_template']` instead of returning a string or the
no-result sentinel. -/
theorem formatAddress_bare_string_raises :
    formatAddress ext0 cfgStr "xx" [("road", "A"), ("house_number", "2")] true true true =
      (Except.error PyErr.typeError, [("road", "A"), ("house_number", "2")]) := by decide

/-- Claim C4: untagged `strip_component` on the spec's example
`", - Main St -, "` indeed yields `"Main St"`, but on `" - Main St"`
(leading whitespace) it yields `" Main S"`: the token offsets are computed
on `value.strip()` while the slice is taken from the unstripped `value`,
so the result is shifted and truncated rather than merely stripped. -/
theorem stripComponentUntagged_eval :
    stripComponentUntagged ", - Main St -, " = "Main St" ∧
      stripComponentUntagged " - Main St" = " Main S" := by decide

/-- Claim C5: the placeholder-comma and placeholder-hyphen rewrites of
`tag_template_separators` do not preserve the placeholder text: the
pattern consumes one closing brace but the replacement emits two, so a
stray `}` is inserted after every `{{placeholder}},` and
`{{placeholder}}-`; only the literal space-hyphen-space rewrite preserves
the surrounding text. -/
theorem tagTemplateSeparators_stray_brace :
    tagTemplateSeparators "{{road}}, {{city}}" = "\x7b\x7broad\x7d\x7d\x7d ,/SEP  \x7b\x7bcity\x7d\x7d" ∧
      tagTemplateSeparators "{{road}}- {{city}}" = "\x7b\x7broad\x7d\x7d\x7d -/SEP  \x7b\x7bcity\x7d\x7d" ∧
      tagTemplateSeparators "{{road}} - {{city}}" = "{{road}} -/SEP {{city}}" := by decide

theorem alookup_mem {α : Type _} {l : List (String × α)} {k : String} {v : α}
    (h : alookup l k = some v) : (k, v) ∈ l := by
  induction l with
  | nil => simp [alookup] at h
  | cons kv t ih =>
    obtain ⟨a, b⟩ := kv
    by_cases hak : a = k
    · subst hak
      have hb : some b = some v := by rw [← h]; simp [alookup]
      injection hb with hb
      subst hb
      exact List.mem_cons_self _ t
    · simp only [alookup, if_neg hak] at h
      exact List.mem_cons_of_mem _ (ih h)

theorem containsKeyB_iff {α : Type _} (l : List (String × α)) (k : String) :
    containsKeyB l k = true ↔ ∃ v, (k, v) ∈ l := by
  unfold containsKeyB
  rw [List.any_eq_true]
  constructor
  · rintro ⟨⟨k1, v1⟩, hm, hb⟩
    rw [beq_iff_eq] at hb
    subst hb
    exact ⟨v1, hm⟩
  · rintro ⟨v, hv⟩
    exact ⟨(k, v), hv, by simp⟩

/-- Claim C3 (amended): `minimal_components` is true iff one of the pairs
road+house_number, road+house, road+postcode is fully present; and for
every component set whose alias-normalized form (when normalization is
enabled) still lacks all three pairs, `format_address` with the gate
enabled returns no-result for every country whose own config entry is a
full record, and likewise for every country absent from the table — in an
arbitrary (possibly mixed) config (bare nonempty string entries raise
instead, the C2 bug). -/
theorem minimalComponents_gate :
    (∀ c : Components,
      minimalComponents c = true ↔
        ((∃ v, ("road", v) ∈ c) ∧ (∃ v, ("house_number", v) ∈ c)) ∨
        ((∃ v, ("road", v) ∈ c) ∧ (∃ v, ("house", v) ∈ c)) ∨
        ((∃ v, ("road", v) ∈ c) ∧ (∃ v, ("postcode", v) ∈ c))) ∧
    (∀ (ext : ExtSvc) (cfg : Config) (country : String) (comps : Components)
      (tg a : Bool) (r : TemplateRecord),
      alookup cfg (pyUpper country) = some (TemplateValue.record r) →
      minimalComponents (if a then replaceAliases comps else comps) = false →
      (formatAddress ext cfg country comps true tg a).1 = Except.ok none) ∧
    (∀ (ext : ExtSvc) (cfg : Config) (country : String) (comps : Components)
      (tg a : Bool),
      alookup cfg (pyUpper country) = none →
      (formatAddress ext cfg country comps true tg a).1 = Except.ok none) := by
  refine ⟨?_, ?_, ?_⟩
  · intro c
    unfold minimalComponents minimalComponentKeys
    simp [List.any_cons, List.all_cons, containsKeyB_iff]
  · intro ext cfg country comps tg a r hl hmin
    unfold formatAddress
    rw [hl]
    simp only [hmin]
    rfl
  · intro ext cfg country comps tg a hl
    unfold formatAddress
    rw [hl]

/-- Claim C3 witness: `{city: Paris}` satisfies no minimal pair before or
after normalization, so `format_address` with the gate enabled returns
no-result both for a country with a record entry and for an absent
country. -/
theorem minimalComponents_gate_witness :
    minimalComponents [("city", "Paris")] = false ∧
      (formatAddress ext0 cfgRec "xx" [("city", "Paris")] true true true).1 =
        Except.ok none ∧
      (formatAddress ext0 cfgRec "zz" [("city", "Paris")] true true true).1 =
        Except.ok none :=
  ⟨by decide,
   minimalComponents_gate.2.1 ext0 cfgRec "xx" [("city", "Paris")] true true rec0
     (by decide) (by decide),
   minimalComponents_gate.2.2 ext0 cfgRec "zz" [("city", "Paris")] true true
     (by decide)⟩

/-- Claim C3 counterexample: the raw set `{street, post_code}` contains
none of the minimal pairs (not even one required component), yet
`format_address` with the gate enabled does not return no-result, because
alias normalization runs before the gate and renames the keys to
road/postcode. -/
theorem formatAddress_gate_raw_set :
    (containsKeyB [("street", "x"), ("post_code", "y")] "road" = false ∧
      containsKeyB [("street", "x"), ("post_code", "y")] "house_number" = false ∧
      containsKeyB [("street", "x"), ("post_code", "y")] "house" = false ∧
      containsKeyB [("street", "x"), ("post_code", "y")] "postcode" = false) ∧
      (formatAddress ext0 cfgRec "xx" [("street", "x"), ("post_code", "y")]
          true false true).1 ≠ Except.ok none := by decide

/-- Claim C10: when the country lookup fails, `format_address` returns
no-result with the caller's mapping untouched; when the minimal-components
gate fails after alias normalization (normalization enabled, record
config entry), it returns no-result with the caller's mapping already
rewritten by `replace_aliases`. -/
theorem formatAddress_mutation :
    (∀ (ext : ExtSvc) (cfg : Config) (country : String) (comps : Components) (m tg a : Bool),
      alookup cfg (pyUpper country) = none →
      formatAddress ext cfg country comps m tg a = (Except.ok none, comps)) ∧
    (∀ (ext : ExtSvc) (cfg : Config) (country : String) (comps : Components) (tg : Bool)
      (r : TemplateRecord),
      alookup cfg (pyUpper country) = some (TemplateValue.record r) →
      minimalComponents (replaceAliases comps) = false →
      formatAddress ext cfg country comps true tg true =
        (Except.ok none, replaceAliases comps)) := by
  constructor
  · intro ext cfg country comps m tg a h
    unfold formatAddress
    rw [h]
  · intro ext cfg country comps tg r hl hmin
    unfold formatAddress
    rw [hl]
    simp only [if_true, hmin]
    rfl

/-- Claim C10 witness: `{street: B}` fails the gate after being renamed to
`{road: B}`, and the returned mapping is the mutated one. -/
theorem formatAddress_mutation_witness :
    formatAddress ext0 cfgRec "xx" [("street", "B")] true true true =
        (Except.ok none, [("road", "B")]) ∧
      ([("road", "B")] : Components) ≠ [("street", "B")] :=
  ⟨by
    rw [formatAddress_mutation.2 ext0 cfgRec "xx" [("street", "B")] true rec0
      (by decide) (by decide)]
    decide,
   by decide⟩

theorem aliasValues_no_alias : ∀ p ∈ aliasesList, aliasGet p.2 = none := by decide

theorem aliasGet_snd_none {k nk : String} (h : aliasGet k = some nk) : aliasGet nk = none :=
  aliasValues_no_alias (k, nk) (alookup_mem h)

theorem mem_eraseKey {α : Type _} {l : List (String × α)} {k k' : String} {v : α} :
    (k, v) ∈ eraseKey l k' ↔ (k, v) ∈ l ∧ k ≠ k' := by
  unfold eraseKey
  rw [List.mem_filter]
  simp [beq_eq_false_iff_ne]

theorem alookup_eraseKey {α : Type _} (l : List (String × α)) (k k' : String) (h : k ≠ k') :
    alookup (eraseKey l k') k = alookup l k := by
  induction l with
  | nil => rfl
  | cons kv t ih =>
    obtain ⟨a, b⟩ := kv
    by_cases hak' : a = k'
    · subst hak'
      have he : eraseKey ((a, b) :: t) a = eraseKey t a := by
        simp [eraseKey]
      rw [he, ih]
      have hna : ¬(a = k) := fun hh => h hh.symm
      simp [alookup, hna]
    · have he : eraseKey ((a, b) :: t) k' = (a, b) :: eraseKey t k' := by
        simp [eraseKey, beq_eq_false_iff_ne, hak']
      rw [he]
      by_cases hak : a = k
      · subst hak
        simp [alookup]
      · simp [alookup, hak, ih]

theorem containsKeyB_append {α : Type _} (l1 l2 : List (String × α)) (k : String) :
    containsKeyB (l1 ++ l2) k = (containsKeyB l1 k || containsKeyB l2 k) := by
  unfold containsKeyB
  exact List.any_append

theorem containsKeyB_eraseKey_self {α : Type _} (l : List (String × α)) (k : String) :
    containsKeyB (eraseKey l k) k = false := by
  unfold containsKeyB
  rw [List.any_eq_false]
  intro kv hkv
  have := (List.mem_filter.mp hkv).2
  simpa using this

theorem containsKeyB_eraseKey_mono {α : Type _} {l : List (String × α)} {nk : String}
    (h : containsKeyB l nk = false) (k' : String) :
    containsKeyB (eraseKey l k') nk = false := by
  unfold containsKeyB at h ⊢
  rw [List.any_eq_false] at h ⊢
  intro kv hkv
  exact h kv (List.mem_filter.mp hkv).1

theorem alookup_none_of_not_containsKey {α : Type _} {l : List (String × α)} {k : String}
    (h : containsKeyB l k = false) : alookup l k = none := by
  cases ha : alookup l k with
  | none => rfl
  | some v =>
    have := (containsKeyB_iff l k).mpr ⟨v, alookup_mem ha⟩
    rw [h] at this
    exact absurd this (by simp)

theorem alookup_append_some {α : Type _} {l1 l2 : List (String × α)} {k : String} {v : α}
    (h : alookup l1 k = some v) : alookup (l1 ++ l2) k = some v := by
  induction l1 with
  | nil => simp [alookup] at h
  | cons kv t ih =>
    obtain ⟨a, b⟩ := kv
    by_cases hak : a = k
    · subst hak
      simp [alookup] at h ⊢
      exact h
    · simp only [alookup, if_neg hak, List.cons_append] at h ⊢
      exact ih h

theorem alookup_append_none {α : Type _} {l1 l2 : List (String × α)} {k : String}
    (h : alookup l1 k = none) : alookup (l1 ++ l2) k = alookup l2 k := by
  induction l1 with
  | nil => rfl
  | cons kv t ih =>
    obtain ⟨a, b⟩ := kv
    by_cases hak : a = k
    · subst hak
      simp [alookup] at h
    · simp only [alookup, if_neg hak, List.cons_append] at h ⊢
      exact ih h

theorem foldl_step_inv (P : Components → Prop) (Q : String → Prop) :
    ∀ (l : List String), (∀ x ∈ l, Q x) →
      (∀ (c : Components) (k' : String), Q k' → P c → P (replaceAliasesStep c k')) →
      ∀ c : Components, P c → P (l.foldl replaceAliasesStep c) := by
  intro l
  induction l with
  | nil => intro _ _ c hc; exact hc
  | cons a t ih =>
    intro hQ hstep c hc
    exact ih (fun x hx => hQ x (List.mem_cons_of_mem a hx)) hstep _
      (hstep c a (hQ a (List.mem_cons_self a t)) hc)

theorem step_eq_of_no_alias {c : Components} {k : String} (h : aliasGet k = none) :
    replaceAliasesStep c k = c := by
  unfold replaceAliasesStep
  rw [h]

theorem step_eq_of_present {c : Components} {k nk : String} (h1 : aliasGet k = some nk)
    (h2 : containsKeyB c nk = true) : replaceAliasesStep c k = c := by
  unfold replaceAliasesStep
  simp only [h1, h2, if_true]

theorem step_eq_of_absent_none {c : Components} {k nk : String} (h1 : aliasGet k = some nk)
    (h2 : containsKeyB c nk = false) (h3 : alookup c k = none) :
    replaceAliasesStep c k = c := by
  unfold replaceAliasesStep
  simp only [h1, h2, Bool.false_eq_true, if_false, h3]

theorem step_eq_rename {c : Components} {k nk v : String} (h1 : aliasGet k = some nk)
    (h2 : containsKeyB c nk = false) (h3 : alookup c k = some v) :
    replaceAliasesStep c k = eraseKey c k ++ [(nk, v)] := by
  unfold replaceAliasesStep
  simp only [h1, h2, Bool.false_eq_true, if_false, h3]

theorem step_keeps_no_alias {k v : String} (hk : aliasGet k = none) :
    ∀ (c : Components) (k' : String), (k, v) ∈ c → (k, v) ∈ replaceAliasesStep c k' := by
  intro c k' hm
  cases hg : aliasGet k' with
  | none => rw [step_eq_of_no_alias hg]; exact hm
  | some m =>
    cases hcb : containsKeyB c m with
    | true => rw [step_eq_of_present hg hcb]; exact hm
    | false =>
      cases hv' : alookup c k' with
      | none => rw [step_eq_of_absent_none hg hcb hv']; exact hm
      | some w =>
        rw [step_eq_rename hg hcb hv']
        apply List.mem_append_left
        rw [mem_eraseKey]
        refine ⟨hm, fun hh => ?_⟩
        have hcon := hk
        rw [hh, hg] at hcon
        exact Option.noConfusion hcon

theorem step_keeps_on_collision {k v nk w : String} (hk : aliasGet k = some nk) :
    ∀ (c : Components) (k' : String), (k, v) ∈ c ∧ (nk, w) ∈ c →
      (k, v) ∈ replaceAliasesStep c k' ∧ (nk, w) ∈ replaceAliasesStep c k' := by
  intro c k' hP
  obtain ⟨hm1, hm2⟩ := hP
  cases hg : aliasGet k' with
  | none => rw [step_eq_of_no_alias hg]; exact ⟨hm1, hm2⟩
  | some m =>
    cases hcb : containsKeyB c m with
    | true => rw [step_eq_of_present hg hcb]; exact ⟨hm1, hm2⟩
    | false =>
      cases hv' : alookup c k' with
      | none => rw [step_eq_of_absent_none hg hcb hv']; exact ⟨hm1, hm2⟩
      | some w' =>
        rw [step_eq_rename hg hcb hv']
        have hk'k : k' ≠ k := by
          intro hh
          subst hh
          rw [hk] at hg
          injection hg with hg'
          subst hg'
          rw [(containsKeyB_iff c nk).mpr ⟨w, hm2⟩] at hcb
          exact Bool.noConfusion hcb
        have hk'nk : k' ≠ nk := by
          intro hh
          subst hh
          rw [aliasGet_snd_none hk] at hg
          exact Option.noConfusion hg
        constructor
        · exact List.mem_append_left _ (mem_eraseKey.mpr ⟨hm1, fun hh => hk'k hh.symm⟩)
        · exact List.mem_append_left _ (mem_eraseKey.mpr ⟨hm2, fun hh => hk'nk hh.symm⟩)

theorem step_phaseA {k v nk : String} (_hk : aliasGet k = some nk)
    (K : List String) (hother : ∀ k' ∈ K, k' ≠ k → aliasGet k' ≠ some nk) :
    ∀ (c : Components) (k' : String), (k' ∈ K ∧ k' ≠ k) →
      (alookup c k = some v ∧ containsKeyB c nk = false) →
      alookup (replaceAliasesStep c k') k = some v ∧
        containsKeyB (replaceAliasesStep c k') nk = false := by
  intro c k' hq hp
  obtain ⟨hmem, hne⟩ := hq
  obtain ⟨h1, h2⟩ := hp
  cases hg : aliasGet k' with
  | none => rw [step_eq_of_no_alias hg]; exact ⟨h1, h2⟩
  | some m =>
    cases hcb : containsKeyB c m with
    | true => rw [step_eq_of_present hg hcb]; exact ⟨h1, h2⟩
    | false =>
      cases hv' : alookup c k' with
      | none => rw [step_eq_of_absent_none hg hcb hv']; exact ⟨h1, h2⟩
      | some w =>
        rw [step_eq_rename hg hcb hv']
        have hmnk : m ≠ nk := fun hh => hother k' hmem hne (by rw [hg, hh])
        constructor
        · apply alookup_append_some
          rw [alookup_eraseKey c k k' (fun hh => hne hh.symm)]
          exact h1
        · rw [containsKeyB_append, containsKeyB_eraseKey_mono h2 k']
          simp [containsKeyB, hmnk]

theorem step_phaseC {k v nk : String} (hk : aliasGet k = some nk)
    (K : List String) (hother : ∀ k' ∈ K, k' ≠ k → aliasGet k' ≠ some nk) :
    ∀ (c : Components) (k' : String), (k' ∈ K ∧ k' ≠ k) →
      (alookup c nk = some v ∧ containsKeyB c k = false) →
      alookup (replaceAliasesStep c k') nk = some v ∧
        containsKeyB (replaceAliasesStep c k') k = false := by
  intro c k' hq hp
  obtain ⟨hmem, hne⟩ := hq
  obtain ⟨h1, h2⟩ := hp
  cases hg : aliasGet k' with
  | none => rw [step_eq_of_no_alias hg]; exact ⟨h1, h2⟩
  | some m =>
    cases hcb : containsKeyB c m with
    | true => rw [step_eq_of_present hg hcb]; exact ⟨h1, h2⟩
    | false =>
      cases hv' : alookup c k' with
      | none => rw [step_eq_of_absent_none hg hcb hv']; exact ⟨h1, h2⟩
      | some w =>
        rw [step_eq_rename hg hcb hv']
        have hk'nk : k' ≠ nk := by
          intro hh
          subst hh
          rw [aliasGet_snd_none hk] at hg
          exact Option.noConfusion hg
        have hmk : m ≠ k := by
          intro hh
          subst hh
          have hmn := aliasGet_snd_none hg
          rw [hk] at hmn
          exact Option.noConfusion hmn
        constructor
        · apply alookup_append_some
          rw [alookup_eraseKey c nk k' (fun hh => hk'nk hh.symm)]
          exact h1
        · rw [containsKeyB_append, containsKeyB_eraseKey_mono h2 k']
          simp [containsKeyB, hmk]

/-- Claim C6 (amended): alias normalization (1) leaves every entry whose
key has no alias in the mapping; (2) when a raw key's canonical name is
already a key, it leaves BOTH the raw entry and the pre-existing canonical
entry in the mapping (the raw entry is not dropped); (3) when the
canonical name is not present (and no other raw key aliases to it), the
entry is renamed: the canonical key maps to the raw key's value and the
raw key is gone. -/
theorem replaceAliases_characterization :
    (∀ (comps : Components) (k v : String), aliasGet k = none → (k, v) ∈ comps →
      (k, v) ∈ replaceAliases comps) ∧
    (∀ (comps : Components) (k v nk w : String), aliasGet k = some nk →
      (k, v) ∈ comps → (nk, w) ∈ comps →
      (k, v) ∈ replaceAliases comps ∧ (nk, w) ∈ replaceAliases comps) ∧
    (∀ (comps : Components) (k v nk : String), (comps.map Prod.fst).Nodup →
      alookup comps k = some v → aliasGet k = some nk →
      containsKeyB comps nk = false →
      (∀ k' ∈ comps.map Prod.fst, k' ≠ k → aliasGet k' ≠ some nk) →
      alookup (replaceAliases comps) nk = some v ∧
        containsKeyB (replaceAliases comps) k = false) := by
  refine ⟨?_, ?_, ?_⟩
  · intro comps k v hk hm
    exact foldl_step_inv (fun c => (k, v) ∈ c) (fun _ => True) (comps.map Prod.fst)
      (fun _ _ => trivial) (fun c k' _ hc => step_keeps_no_alias hk c k' hc) comps hm
  · intro comps k v nk w hk hm hw
    exact foldl_step_inv (fun c => (k, v) ∈ c ∧ (nk, w) ∈ c) (fun _ => True)
      (comps.map Prod.fst) (fun _ _ => trivial)
      (fun c k' _ hc => step_keeps_on_collision hk c k' hc) comps ⟨hm, hw⟩
  · intro comps k v nk hnd hv hk hnkB hother
    have hkmem : k ∈ comps.map Prod.fst :=
      List.mem_map.mpr ⟨(k, v), alookup_mem hv, rfl⟩
    obtain ⟨l1, l2, hks⟩ := List.append_of_mem hkmem
    have hnd2 : (l1 ++ k :: l2).Nodup := hks ▸ hnd
    have hmid : (k :: (l1 ++ l2)).Nodup := List.nodup_middle.mp hnd2
    have hknotin : k ∉ l1 ++ l2 := (List.nodup_cons.mp hmid).1
    have hk1 : k ∉ l1 := fun hh => hknotin (List.mem_append_left _ hh)
    have hk2 : k ∉ l2 := fun hh => hknotin (List.mem_append_right _ hh)
    unfold replaceAliases
    rw [hks, List.foldl_append, List.foldl_cons]
    have hQ1 : ∀ x ∈ l1, x ∈ comps.map Prod.fst ∧ x ≠ k := by
      intro x hx
      exact ⟨by rw [hks]; exact List.mem_append_left _ hx,
        fun hh => hk1 (hh ▸ hx)⟩
    have phA := foldl_step_inv
      (fun c => alookup c k = some v ∧ containsKeyB c nk = false)
      (fun k' => k' ∈ comps.map Prod.fst ∧ k' ≠ k) l1 hQ1
      (fun c k' hq hp => step_phaseA hk (comps.map Prod.fst) hother c k' hq hp)
      comps ⟨hv, hnkB⟩
    obtain ⟨hA1, hA2⟩ := phA
    rw [step_eq_rename hk hA2 hA1]
    have hnkk : nk ≠ k := by
      intro hh
      have h1 := aliasGet_snd_none hk
      rw [hh, hk] at h1
      exact Option.noConfusion h1
    have hC0 : alookup (eraseKey (l1.foldl replaceAliasesStep comps) k ++ [(nk, v)]) nk =
          some v ∧
        containsKeyB (eraseKey (l1.foldl replaceAliasesStep comps) k ++ [(nk, v)]) k =
          false := by
      constructor
      · rw [alookup_append_none]
        · simp [alookup]
        · exact alookup_none_of_not_containsKey (containsKeyB_eraseKey_mono hA2 k)
      · rw [containsKeyB_append, containsKeyB_eraseKey_self]
        simp [containsKeyB, hnkk]
    have hQ2 : ∀ x ∈ l2, x ∈ comps.map Prod.fst ∧ x ≠ k := by
      intro x hx
      refine ⟨by rw [hks]; exact List.mem_append_right _ (List.mem_cons_of_mem k hx),
        fun hh => hk2 (hh ▸ hx)⟩
    exact foldl_step_inv
      (fun c => alookup c nk = some v ∧ containsKeyB c k = false)
      (fun k' => k' ∈ comps.map Prod.fst ∧ k' ≠ k) l2 hQ2
      (fun c k' hq hp => step_phaseC hk (comps.map Prod.fst) hother c k' hq hp)
      _ hC0

/-- Claim C6 witness: a no-alias key stays; on collision both `road` and
`street` survive; without collision `street` is renamed to `road`. -/
theorem replaceAliases_characterization_witness :
    ("city", "X") ∈ replaceAliases [("city", "X")] ∧
      (("street", "B") ∈ replaceAliases [("road", "A"), ("street", "B")] ∧
        ("road", "A") ∈ replaceAliases [("road", "A"), ("street", "B")]) ∧
      (alookup (replaceAliases [("street", "B")]) "road" = some "B" ∧
        containsKeyB (replaceAliases [("street", "B")]) "street" = false) :=
  ⟨replaceAliases_characterization.1 [("city", "X")] "city" "X" (by decide) (by decide),
   ⟨(replaceAliases_characterization.2.1 [("road", "A"), ("street", "B")]
       "street" "B" "road" "A" (by decide) (by decide) (by decide)).1,
    (replaceAliases_characterization.2.1 [("road", "A"), ("street", "B")]
       "street" "B" "road" "A" (by decide) (by decide) (by decide)).2⟩,
   replaceAliases_characterization.2.2 [("street", "B")] "street" "B" "road"
     (by decide) (by decide) (by decide) (by decide) (by decide)⟩

/-- Claim C6 counterexample: with `road` already present, the raw entry
`street` is NOT dropped from the set as the claim states: `replace_aliases`
leaves the mapping unchanged and `street` is still a key afterwards. -/
theorem replaceAliases_keeps_raw :
    replaceAliases [("road", "A"), ("street", "B")] = [("road", "A"), ("street", "B")] ∧
      containsKeyB (replaceAliases [("road", "A"), ("street", "B")]) "street" = true := by
  decide

theorem rsplitSlash_isSome {t : List Char} (h : '/' ∈ t) :
    ∃ p, rsplitSlash t = some p := by
  unfold rsplitSlash
  cases hd : t.reverse.dropWhile (fun c => !(c == '/')) with
  | nil =>
    exfalso
    have hall := List.dropWhile_eq_nil_iff.mp hd
    have := hall '/' (List.mem_reverse.mpr h)
    simp at this
  | cons a br => exact ⟨_, rfl⟩

theorem tagLabel_eq {t : List Char} {p : List Char × List Char}
    (h : rsplitSlash t = some p) : tagLabel t = p.2 := by
  unfold tagLabel
  rw [h]

theorem tagScan_eq (toks : List (List Char)) (h : ∀ t ∈ toks, '/' ∈ t) :
    ∀ i, tagScan toks i =
      some (i + toks.findIdx (fun t => !(tagLabel t == "SEP".toList))) := by
  induction toks with
  | nil => intro i; simp [tagScan]
  | cons t rest ih =>
    intro i
    obtain ⟨p, hp⟩ := rsplitSlash_isSome (h t (List.mem_cons_self t rest))
    obtain ⟨b, c⟩ := p
    have hlab : tagLabel t = c := tagLabel_eq hp
    have hrest : ∀ x ∈ rest, '/' ∈ x := fun x hx => h x (List.mem_cons_of_mem t hx)
    simp only [tagScan, hp]
    by_cases hc : c = "SEP".toList
    · rw [if_pos hc, ih hrest (i + 1)]
      have hpt : (fun t => !(tagLabel t == "SEP".toList)) t = false := by
        simp [hlab, hc]
      rw [List.findIdx_cons]
      simp only [hpt, cond_false]
      congr 1
      omega
    · rw [if_neg hc]
      have hpt : (fun t => !(tagLabel t == "SEP".toList)) t = true := by
        simp [hlab]
        exact hc
      rw [List.findIdx_cons]
      simp only [hpt, cond_true, Nat.add_zero]

theorem tagScanEnd_eq (n : Nat) (toks : List (List Char)) (h : ∀ t ∈ toks, '/' ∈ t) :
    ∀ j, tagScanEnd n toks j =
      some (n - (j + toks.findIdx (fun t => !(tagLabel t == "SEP".toList)))) := by
  induction toks with
  | nil => intro j; simp [tagScanEnd]
  | cons t rest ih =>
    intro j
    obtain ⟨p, hp⟩ := rsplitSlash_isSome (h t (List.mem_cons_self t rest))
    obtain ⟨b, c⟩ := p
    have hlab : tagLabel t = c := tagLabel_eq hp
    have hrest : ∀ x ∈ rest, '/' ∈ x := fun x hx => h x (List.mem_cons_of_mem t hx)
    simp only [tagScanEnd, hp]
    by_cases hc : c = "SEP".toList
    · rw [if_pos hc, ih hrest (j + 1)]
      have hpt : (fun t => !(tagLabel t == "SEP".toList)) t = false := by
        simp [hlab, hc]
      rw [List.findIdx_cons]
      simp only [hpt, cond_false]
      congr 1
      omega
    · rw [if_neg hc]
      have hpt : (fun t => !(tagLabel t == "SEP".toList)) t = true := by
        simp [hlab]
        exact hc
      rw [List.findIdx_cons]
      simp only [hpt, cond_true, Nat.add_zero]

/-- Claim C9: on values whose whitespace-split tokens are all of the
tagged `token/LABEL` form, tagged `strip_component` returns the empty
string when every token carries the synthetic `SEP` label (including the
empty value), and otherwise the space-joined subsequence of tagged tokens
between the first and last non-separator tokens, exactly as the spec-side
description `stripTaggedSpec` states. -/
theorem stripComponentTagged_spec (value : String)
    (h : ∀ t ∈ pySplitWs value.toList, '/' ∈ t) :
    stripComponentTagged value = some (stripTaggedSpec value) := by
  unfold stripComponentTagged stripTaggedSpec
  have hrev : ∀ t ∈ (pySplitWs value.toList).reverse, '/' ∈ t :=
    fun t ht => h t (List.mem_reverse.mp ht)
  simp only [tagScan_eq (pySplitWs value.toList) h 0,
    tagScanEnd_eq (pySplitWs value.toList).length (pySplitWs value.toList).reverse hrev 0,
    Nat.zero_add]
  by_cases hall :
      (pySplitWs value.toList).all (fun t => tagLabel t == "SEP".toList) = true
  · rw [if_pos hall]
    have hfi : (pySplitWs value.toList).findIdx
        (fun t => !(tagLabel t == "SEP".toList)) = (pySplitWs value.toList).length := by
      apply List.findIdx_eq_length_of_false
      intro x hx
      have hxx := List.all_eq_true.mp hall x hx
      rw [hxx]
      rfl
    rw [hfi]
    simp [List.drop_length]
    rfl
  · rw [if_neg hall]

/-- Claim C9 witness: a concrete tagged value with separator tokens on
both sides strips to its single real token. -/
theorem stripComponentTagged_spec_witness :
    stripComponentTagged ",/SEP x/road ,/SEP" =
        some (stripTaggedSpec ",/SEP x/road ,/SEP") ∧
      stripTaggedSpec ",/SEP x/road ,/SEP" = "x/road" ∧
      stripComponentTagged ",/SEP -/SEP" = some "" ∧
      stripComponentTagged "" = some "" :=
  ⟨stripComponentTagged_spec ",/SEP x/road ,/SEP" (by decide), by decide, by decide,
    by decide⟩
